import Mathlib

/-!
Shallow embedding of the Vulkan shared-memory subsystem
(src/xenia/gpu/vulkan/vulkan_shared_memory.cc) and proofs of the frozen
claims about it.

Machine integers are modelled as Nat; uint32 arithmetic that can wrap in
the source is written with an explicit reduction modulo 2 ^ 32.  External
collaborators (the Vulkan device functions, the upload-buffer pool, the
trace writer, the base SharedMemory class) are modelled as oracles or as
event traces recorded in the results.
-/

namespace VulkanSharedMemory

/-- uint32 truncation used wherever the source performs uint32 arithmetic
that can wrap (left shifts, additions). -/
def u32 (n : Nat) : Nat := n % 2 ^ 32

/-- uint32 subtraction with wraparound; for b already below 2 ^ 32 this is
the value of the C expression a - b on uint32 operands. -/
def u32sub (a b : Nat) : Nat := (a + 2 ^ 32 - b % 2 ^ 32) % 2 ^ 32

/-- The SharedMemory::Usage enumeration. -/
inductive Usage
  | kRead
  | kComputeWrite
  | kTransferDestination
  | kGuestDrawReadWrite
deriving DecidableEq, Repr

/- Vulkan pipeline-stage flag bits (values fixed by the Vulkan ABI). -/

def VK_PIPELINE_STAGE_VERTEX_INPUT_BIT : Nat := 0x00000004

def VK_PIPELINE_STAGE_VERTEX_SHADER_BIT : Nat := 0x00000008

def VK_PIPELINE_STAGE_TESSELLATION_EVALUATION_SHADER_BIT : Nat := 0x00000020

def VK_PIPELINE_STAGE_FRAGMENT_SHADER_BIT : Nat := 0x00000080

def VK_PIPELINE_STAGE_COMPUTE_SHADER_BIT : Nat := 0x00000800

def VK_PIPELINE_STAGE_TRANSFER_BIT : Nat := 0x00001000

/- Vulkan access flag bits. -/

def VK_ACCESS_INDEX_READ_BIT : Nat := 0x00000002

def VK_ACCESS_SHADER_READ_BIT : Nat := 0x00000020

def VK_ACCESS_SHADER_WRITE_BIT : Nat := 0x00000040

def VK_ACCESS_TRANSFER_READ_BIT : Nat := 0x00000800

def VK_ACCESS_TRANSFER_WRITE_BIT : Nat := 0x00001000

/- Vulkan buffer-create flag bits. -/

def VK_BUFFER_CREATE_SPARSE_BINDING_BIT : Nat := 0x00000001

def VK_BUFFER_CREATE_SPARSE_RESIDENCY_BIT : Nat := 0x00000002

/-- VK_WHOLE_SIZE, the all-ones uint64 sentinel: as a barrier size with
offset 0 it denotes the entire buffer. -/
def VK_WHOLE_SIZE : Nat := 2 ^ 64 - 1

/-- VulkanSharedMemory::GetBarrier (vulkan_shared_memory.cc:265-299),
translated from the source switch.  The tessellation-evaluation stage is
added exactly when the device feature tessellationShader is enabled, which
is passed in as the parameter tess.  The result is the pair
(stage_mask, access_mask). -/
def GetBarrier (tess : Bool) (usage : Usage) : Nat × Nat :=
  match usage with
  | Usage.kComputeWrite =>
      (VK_PIPELINE_STAGE_COMPUTE_SHADER_BIT, VK_ACCESS_SHADER_READ_BIT)
  | Usage.kTransferDestination =>
      (VK_PIPELINE_STAGE_TRANSFER_BIT, VK_ACCESS_TRANSFER_WRITE_BIT)
  | Usage.kRead =>
      let stage_mask :=
        (VK_PIPELINE_STAGE_VERTEX_INPUT_BIT |||
         VK_PIPELINE_STAGE_VERTEX_SHADER_BIT |||
         VK_PIPELINE_STAGE_FRAGMENT_SHADER_BIT) |||
        (if tess then VK_PIPELINE_STAGE_TESSELLATION_EVALUATION_SHADER_BIT
         else 0)
      let access_mask := VK_ACCESS_INDEX_READ_BIT ||| VK_ACCESS_SHADER_READ_BIT
      (stage_mask ||| (VK_PIPELINE_STAGE_COMPUTE_SHADER_BIT |||
                       VK_PIPELINE_STAGE_TRANSFER_BIT),
       access_mask ||| VK_ACCESS_TRANSFER_READ_BIT)
  | Usage.kGuestDrawReadWrite =>
      let stage_mask :=
        (VK_PIPELINE_STAGE_VERTEX_INPUT_BIT |||
         VK_PIPELINE_STAGE_VERTEX_SHADER_BIT |||
         VK_PIPELINE_STAGE_FRAGMENT_SHADER_BIT) |||
        (if tess then VK_PIPELINE_STAGE_TESSELLATION_EVALUATION_SHADER_BIT
         else 0)
      let access_mask := VK_ACCESS_INDEX_READ_BIT ||| VK_ACCESS_SHADER_READ_BIT
      (stage_mask, access_mask ||| VK_ACCESS_SHADER_WRITE_BIT)

/-- The stage/access mapping table exactly as written in the specification
(section 4.2), for comparison with GetBarrier.  Each row lists the stages
and accesses named by the spec table. -/
def specBarrierTable (tess : Bool) (usage : Usage) : Nat × Nat :=
  match usage with
  | Usage.kComputeWrite =>
      (VK_PIPELINE_STAGE_COMPUTE_SHADER_BIT, VK_ACCESS_SHADER_READ_BIT)
  | Usage.kTransferDestination =>
      (VK_PIPELINE_STAGE_TRANSFER_BIT, VK_ACCESS_TRANSFER_WRITE_BIT)
  | Usage.kRead =>
      (VK_PIPELINE_STAGE_VERTEX_INPUT_BIT |||
       VK_PIPELINE_STAGE_VERTEX_SHADER_BIT |||
       VK_PIPELINE_STAGE_FRAGMENT_SHADER_BIT |||
       (if tess then VK_PIPELINE_STAGE_TESSELLATION_EVALUATION_SHADER_BIT
        else 0) |||
       VK_PIPELINE_STAGE_COMPUTE_SHADER_BIT |||
       VK_PIPELINE_STAGE_TRANSFER_BIT,
       VK_ACCESS_INDEX_READ_BIT ||| VK_ACCESS_SHADER_READ_BIT |||
       VK_ACCESS_TRANSFER_READ_BIT)
  | Usage.kGuestDrawReadWrite =>
      (VK_PIPELINE_STAGE_VERTEX_INPUT_BIT |||
       VK_PIPELINE_STAGE_VERTEX_SHADER_BIT |||
       VK_PIPELINE_STAGE_FRAGMENT_SHADER_BIT |||
       (if tess then VK_PIPELINE_STAGE_TESSELLATION_EVALUATION_SHADER_BIT
        else 0),
       VK_ACCESS_INDEX_READ_BIT ||| VK_ACCESS_SHADER_READ_BIT |||
       VK_ACCESS_SHADER_WRITE_BIT)

/-- The usage/written-range state of the tracker: the members last_usage_
and last_written_range_ of VulkanSharedMemory. -/
structure UsageState where
  last_usage : Usage
  last_written_range : Nat × Nat
deriving DecidableEq, Repr

/-- The fields of the VkBufferMemoryBarrier filled in by Use, together with
the stage masks passed to CmdVkPipelineBarrier alongside it. -/
structure BufferMemoryBarrier where
  srcStageMask : Nat
  dstStageMask : Nat
  srcAccessMask : Nat
  dstAccessMask : Nat
  offset : Nat
  size : Nat
deriving DecidableEq, Repr

/-- VulkanSharedMemory::Use (vulkan_shared_memory.cc:156-189).  Returns the
new tracker state and the barrier emitted into the deferred command buffer,
if any.  kBufferSize is the buffer-size constant from the header (a
parameter here); tess is the tessellationShader device feature consumed by
GetBarrier.  The debug assertion that a kRead usage carries an empty
written range has no effect on the computed state and is not modelled. -/
def Use (tess : Bool) (kBufferSize : Nat) (s : UsageState) (usage : Usage)
    (written_range : Nat × Nat) : UsageState × Option BufferMemoryBarrier :=
  let first := min written_range.1 kBufferSize
  let second := min written_range.2 (kBufferSize - first)
  if s.last_usage ≠ usage ∨ s.last_written_range.2 ≠ 0 then
    let src := GetBarrier tess s.last_usage
    let dst := GetBarrier tess usage
    if s.last_usage = usage then
      ({ last_usage := s.last_usage, last_written_range := (first, second) },
       some { srcStageMask := src.1, dstStageMask := dst.1,
              srcAccessMask := src.2, dstAccessMask := dst.2,
              offset := s.last_written_range.1,
              size := s.last_written_range.2 })
    else
      ({ last_usage := usage, last_written_range := (first, second) },
       some { srcStageMask := src.1, dstStageMask := dst.1,
              srcAccessMask := src.2, dstAccessMask := dst.2,
              offset := 0, size := VK_WHOLE_SIZE })
  else
    ({ last_usage := s.last_usage, last_written_range := (first, second) },
     none)

/-- The object state touched by Initialize and Shutdown: the
upload_buffer_pool_, last_usage_, last_written_range_, buffer_,
buffer_memory_allocated_ and buffer_memory_ members.  Handles are Nats;
buffer_ is none when the handle is VK_NULL_HANDLE. -/
structure SharedMemoryState where
  upload_buffer_pool : Bool
  last_usage : Usage
  last_written_range : Nat × Nat
  buffer : Option Nat
  buffer_memory_allocated : List Nat
  buffer_memory : List Nat
deriving DecidableEq, Repr

/-- The externally visible effects of one Shutdown call: which buffer
handles were destroyed, which memory allocations were freed, and whether
the shared base-class teardown (ShutdownCommon) ran. -/
structure ShutdownEvents where
  destroyedBuffers : List Nat
  freedMemory : List Nat
  shutdownCommonCalled : Bool
deriving DecidableEq, Repr

/-- VulkanSharedMemory::Shutdown (vulkan_shared_memory.cc:124-148).  The
DestroyAndNullHandle helper lives outside src/.
Modelled from the spec: it destroys the buffer handle when it is non-null
and clears it, so a null handle is destroyed zero times. -/
def Shutdown (s : SharedMemoryState) (from_destructor : Bool) :
    SharedMemoryState × ShutdownEvents :=
  ({ upload_buffer_pool := false,
     last_usage := Usage.kTransferDestination,
     last_written_range := (0, 0),
     buffer := none,
     buffer_memory_allocated := [],
     buffer_memory := [] },
   { destroyedBuffers := match s.buffer with
       | some h => [h]
       | none => [],
     freedMemory := s.buffer_memory,
     shutdownCommonCalled := !from_destructor })

/-- xe::bit_scan_forward on a 32-bit mask: fails exactly on mask 0,
otherwise yields the index of the lowest set bit.  The helper lives in
xenia/base/math.h, outside src/.
Modelled from the spec: memory-type selection picks the first matching bit
in the intersection of the allowed-type mask and the device-local mask,
and the absence of a match is a failure. -/
def lowestSetBitAux : Nat → Nat → Nat
  | 0, _ => 0
  | fuel + 1, n => if n % 2 = 1 ∨ n = 0 then 0 else lowestSetBitAux fuel (n / 2) + 1

/-- See lowestSetBitAux: none exactly when the mask is zero. -/
def bit_scan_forward (n : Nat) : Option Nat :=
  if n = 0 then none else some (lowestSetBitAux n n)

/-- The two sparse buffer-create flags combined, as in the local constant
sparse_flags of Initialize. -/
def kSparseFlags : Nat :=
  VK_BUFFER_CREATE_SPARSE_BINDING_BIT ||| VK_BUFFER_CREATE_SPARSE_RESIDENCY_BIT

/-- Oracle for the Vulkan device calls made by Initialize: vkCreateBuffer
(indexed by attempt number and the flags passed), the two memory-type
masks, vkAllocateMemory, and vkBindBufferMemory.  A none / false outcome
is a VkResult other than VK_SUCCESS. -/
structure InitOracle where
  createBuffer : Nat → Nat → Option Nat
  memoryTypeBits : Nat
  memory_types_device_local : Nat
  allocateMemory : Option Nat
  bindBufferMemory : Bool

/-- The outcome of Initialize: the boolean result, the object state left
behind, the flags word passed to each vkCreateBuffer attempt (in order),
and the Shutdown effects when a failure path unwound. -/
structure InitResult where
  success : Bool
  state : SharedMemoryState
  createAttemptFlags : List Nat
  shutdownCalled : Bool
  shutdownEvents : Option ShutdownEvents
deriving DecidableEq, Repr

/-- VulkanSharedMemory::Initialize (vulkan_shared_memory.cc:37-122).
buffer_create_info.flags is initialized to 0 and never receives the sparse
flags (sparse binding is a TODO in the source), which the model keeps as
the local value flags below; the retry test flags AND kSparseFlags follows
the source verbatim.  InitializeCommon is base-class setup outside src/
with no effect on the modelled state. -/
def Initialize (o : InitOracle) (s : SharedMemoryState) : InitResult :=
  let flags : Nat := 0
  let firstAttempt := o.createBuffer 0 flags
  let afterRetry :
      Nat × Option Nat × List Nat :=
    match firstAttempt with
    | some h => (flags, some h, [flags])
    | none =>
      if flags &&& kSparseFlags ≠ 0 then
        let flagsCleared := flags &&& ((2 ^ 32 - 1) ^^^ kSparseFlags)
        (flagsCleared, o.createBuffer 1 flagsCleared, [flags, flagsCleared])
      else
        (flags, none, [flags])
  match afterRetry with
  | (flags2, createResult, attempts) =>
    match createResult with
    | none =>
      let sd := Shutdown s false
      { success := false, state := sd.1, createAttemptFlags := attempts,
        shutdownCalled := true, shutdownEvents := some sd.2 }
    | some h =>
      let s1 : SharedMemoryState := { s with buffer := some h }
      match bit_scan_forward (o.memoryTypeBits &&& o.memory_types_device_local) with
      | none =>
        let sd := Shutdown s1 false
        { success := false, state := sd.1, createAttemptFlags := attempts,
          shutdownCalled := true, shutdownEvents := some sd.2 }
      | some _ =>
        if flags2 &&& kSparseFlags = 0 then
          match o.allocateMemory with
          | none =>
            let sd := Shutdown s1 false
            { success := false, state := sd.1, createAttemptFlags := attempts,
              shutdownCalled := true, shutdownEvents := some sd.2 }
          | some mem =>
            let s2 : SharedMemoryState :=
              { s1 with buffer_memory := s1.buffer_memory ++ [mem] }
            if o.bindBufferMemory then
              { success := true,
                state := { s2 with upload_buffer_pool := true },
                createAttemptFlags := attempts,
                shutdownCalled := false, shutdownEvents := none }
            else
              let sd := Shutdown s2 false
              { success := false, state := sd.1, createAttemptFlags := attempts,
                shutdownCalled := true, shutdownEvents := some sd.2 }
        else
          { success := true,
            state := { s1 with upload_buffer_pool := true },
            createAttemptFlags := attempts,
            shutdownCalled := false, shutdownEvents := none }

/-- One successful staging allocation handed out by
VulkanUploadBufferPool::RequestPartial: the staging buffer identity
(VkBuffer handle, as a Nat), the offset inside it, and the granted byte
size. -/
structure Grant where
  buffer : Nat
  offset : Nat
  size : Nat
deriving DecidableEq, Repr

/-- One VkBufferCopy region accumulated in upload_regions_. -/
structure VkBufferCopy where
  srcOffset : Nat
  dstOffset : Nat
  size : Nat
deriving DecidableEq, Repr

/-- The byte address and length passed to TraceWriter::WriteMemoryRead for
a page range: the source expressions start shifted left by the page-size
exponent, on uint32. -/
def byteSpan (log2 : Nat) (r : Nat × Nat) : Nat × Nat :=
  (u32 (r.1 <<< log2), u32 (r.2 <<< log2))

/-- The loop-carried state of UploadRanges: the successful flag, the
pending region list upload_regions_, upload_buffer_previous (0 stands for
VK_NULL_HANDLE), and the event traces for issued CmdVkCopyBuffer commands,
MakeRangeValid calls, pool requests (requested byte size with the
response), and chunks, the ghost log of every region appended together
with the staging-buffer identity it was staged in.  Two further ghost
fields position the pool requests within the batch: rangeIndex is the
zero-based index of the input range currently being processed by the for
loop, and requestRanges records, for each pool request in order, the
rangeIndex at which it was issued. -/
structure LoopState where
  successful : Bool
  upload_regions : List VkBufferCopy
  upload_buffer_previous : Nat
  commands : List (Nat × List VkBufferCopy)
  validCalls : List (Nat × Nat)
  requestLog : List (Nat × Option Grant)
  chunks : List (Nat × VkBufferCopy)
  rangeIndex : Nat
  requestRanges : List Nat
deriving DecidableEq, Repr

/-- The VkBufferCopy built for one chunk: srcOffset is the staging offset,
dstOffset the destination byte address (a uint32 shift widened to
VkDeviceSize), size the granted byte size. -/
def chunkRegion (log2 upload_range_start : Nat) (g : Grant) : VkBufferCopy :=
  { srcOffset := g.offset,
    dstOffset := u32 (upload_range_start <<< log2),
    size := g.size }

/-- The body of one successful inner-loop iteration of UploadRanges
(vulkan_shared_memory.cc:227-249): record MakeRangeValid and the pool
request, flush the pending region list as one copy command against the
previous staging-buffer identity when the identity changed and the list is
non-empty, then append this chunk region and remember the new identity. -/
def uploadStep (log2 upload_range_start req : Nat) (g : Grant)
    (st : LoopState) : LoopState :=
  { successful := st.successful,
    upload_regions :=
      (if st.upload_buffer_previous ≠ g.buffer ∧ st.upload_regions ≠ []
       then [] else st.upload_regions) ++
      [chunkRegion log2 upload_range_start g],
    upload_buffer_previous := g.buffer,
    commands :=
      if st.upload_buffer_previous ≠ g.buffer ∧ st.upload_regions ≠ []
      then st.commands ++ [(st.upload_buffer_previous, st.upload_regions)]
      else st.commands,
    validCalls :=
      st.validCalls ++ [(u32 (upload_range_start <<< log2), u32 g.size)],
    requestLog := st.requestLog ++ [(req, some g)],
    chunks := st.chunks ++ [(g.buffer, chunkRegion log2 upload_range_start g)],
    rangeIndex := st.rangeIndex,
    requestRanges := st.requestRanges ++ [st.rangeIndex] }

/-- The inner while loop of UploadRanges (vulkan_shared_memory.cc:215-250)
for one page range, fuel-indexed.  The pool oracle maps the request index
(requests made so far) and the requested byte size to its response; a none
response is a failed RequestPartial, which sets successful to false and
breaks.  Each successful iteration consumes at least one page whenever the
grant size is at least one page, so fuel equal to the range page count
suffices.  The memcpy from the translated guest pointer into the staging
mapping moves bytes outside the modelled state. -/
def uploadRangeLoop (pool : Nat → Nat → Option Grant) (log2 : Nat) :
    Nat → Nat → Nat → LoopState → LoopState
  | 0, _, _, st => st
  | fuel + 1, upload_range_start, upload_range_length, st =>
    if upload_range_length = 0 then st
    else
      let req := u32 (upload_range_length <<< log2)
      match pool st.requestLog.length req with
      | none =>
        { st with successful := false,
                  requestLog := st.requestLog ++ [(req, none)],
                  requestRanges := st.requestRanges ++ [st.rangeIndex] }
      | some g =>
        let upload_buffer_pages := u32 (g.size >>> log2)
        uploadRangeLoop pool log2 fuel
          (u32 (upload_range_start + upload_buffer_pages))
          (u32sub upload_range_length upload_buffer_pages)
          (uploadStep log2 upload_range_start req g st)

/-- The outer for loop of UploadRanges (vulkan_shared_memory.cc:210-254):
for each range, record the WriteMemoryRead trace event, run the inner
while loop, and stop if it marked failure.  Returns the final loop state
and the accumulated WriteMemoryRead trace. -/
def uploadRangesLoop (pool : Nat → Nat → Option Grant) (log2 : Nat) :
    List (Nat × Nat) → LoopState → List (Nat × Nat) →
    LoopState × List (Nat × Nat)
  | [], st, tw => (st, tw)
  | r :: rest, st, tw =>
    let tw1 := tw ++ [byteSpan log2 r]
    let st1 := uploadRangeLoop pool log2 r.2 r.1 r.2 st
    if st1.successful then
      uploadRangesLoop pool log2 rest
        { st1 with rangeIndex := st1.rangeIndex + 1 } tw1
    else (st1, tw1)

/-- The values of the locals of UploadRanges at the top of the loop:
successful starts true, upload_regions_ was cleared on entry (line 208),
upload_buffer_previous starts at VK_NULL_HANDLE, and the event traces are
empty. -/
def initialLoopState : LoopState :=
  { successful := true, upload_regions := [], upload_buffer_previous := 0,
    commands := [], validCalls := [], requestLog := [], chunks := [],
    rangeIndex := 0, requestRanges := [] }

/-- Everything observable about one UploadRanges call: the boolean result,
the tracker state and barrier produced by the single Use call, the list of
Use invocations (usage with the written-range argument), the
WriteMemoryRead trace, the MakeRangeValid trace, the CmdVkCopyBuffer
commands issued (source buffer identity with its region list), the pool
request log, the ghost chunk log, the ghost log of the input-range index
at which each pool request was issued, and the value of the
upload_regions_ member at return. -/
structure UploadResult where
  successful : Bool
  tracker : UsageState
  barrier : Option BufferMemoryBarrier
  useCalls : List (Usage × (Nat × Nat))
  traceWrites : List (Nat × Nat)
  validCalls : List (Nat × Nat)
  copyCommands : List (Nat × List VkBufferCopy)
  requestLog : List (Nat × Option Grant)
  chunks : List (Nat × VkBufferCopy)
  requestRanges : List Nat
  upload_regions : List VkBufferCopy
deriving DecidableEq, Repr

/-- VulkanSharedMemory::UploadRanges (vulkan_shared_memory.cc:191-263).
regions0 is the upload_regions_ member on entry (cleared at line 208 on
every non-empty-input path).  The barrier span follows the source uint32
expressions; the final pending list is flushed as one command when
non-empty. -/
def UploadRanges (tess : Bool) (kBufferSize : Nat) (log2 : Nat)
    (pool : Nat → Nat → Option Grant) (tracker : UsageState)
    (regions0 : List VkBufferCopy) (ranges : List (Nat × Nat)) :
    UploadResult :=
  match ranges with
  | [] =>
    { successful := true, tracker := tracker, barrier := none, useCalls := [],
      traceWrites := [], validCalls := [], copyCommands := [],
      requestLog := [], chunks := [], requestRanges := [],
      upload_regions := regions0 }
  | r :: rs =>
    let front := r
    let back := (r :: rs).getLast (List.cons_ne_nil r rs)
    let span : Nat × Nat :=
      (u32 (front.1 <<< log2),
       u32 ((u32sub (u32 (back.1 + back.2)) front.1) <<< log2))
    let ur := Use tess kBufferSize tracker Usage.kTransferDestination span
    let run := uploadRangesLoop pool log2 (r :: rs) initialLoopState []
    let stFinal :=
      if run.1.upload_regions = [] then run.1
      else
        { run.1 with
          commands := run.1.commands ++
            [(run.1.upload_buffer_previous, run.1.upload_regions)],
          upload_regions := [] }
    { successful := stFinal.successful, tracker := ur.1, barrier := ur.2,
      useCalls := [(Usage.kTransferDestination, span)],
      traceWrites := run.2, validCalls := stFinal.validCalls,
      copyCommands := stFinal.commands, requestLog := stFinal.requestLog,
      chunks := stFinal.chunks, requestRanges := stFinal.requestRanges,
      upload_regions := stFinal.upload_regions }

/-- Prepend a run of regions rs under staging-buffer identity b to a list
of already-coalesced groups: if the first group has the same identity the
run merges into it, otherwise it stands as its own group. -/
def coalesceCons (b : Nat) (rs : List VkBufferCopy)
    (groups : List (Nat × List VkBufferCopy)) :
    List (Nat × List VkBufferCopy) :=
  match groups with
  | [] => [(b, rs)]
  | (c, rs2) :: out =>
    if b = c then (b, rs ++ rs2) :: out else (b, rs) :: (c, rs2) :: out

/-- The coalescing contract stated by the spec: group the chunk sequence
into maximal runs of consecutive chunks with the same staging-buffer
identity, one batched copy command per run, carrying exactly the run
regions in order. -/
def coalesceSpec : List (Nat × VkBufferCopy) → List (Nat × List VkBufferCopy)
  | [] => []
  | (b, r) :: rest => coalesceCons b [r] (coalesceSpec rest)

/-- The flush automaton of the source loop, as a pure function: state is
(issued commands, pending regions, previous identity); an identity change
with pending regions flushes the pending list against the previous
identity. -/
def coalesceAcc :
    List (Nat × List VkBufferCopy) → List VkBufferCopy → Nat →
    List (Nat × VkBufferCopy) →
    List (Nat × List VkBufferCopy) × List VkBufferCopy × Nat
  | cmds, pending, prev, [] => (cmds, pending, prev)
  | cmds, pending, prev, (b, r) :: rest =>
    coalesceAcc
      (if prev ≠ b ∧ pending ≠ [] then cmds ++ [(prev, pending)] else cmds)
      ((if prev ≠ b ∧ pending ≠ [] then [] else pending) ++ [r]) b rest

/-- The final flush after the batch: a non-empty pending list becomes one
more command against the last identity. -/
def flushFinal
    (t : List (Nat × List VkBufferCopy) × List VkBufferCopy × Nat) :
    List (Nat × List VkBufferCopy) :=
  if t.2.1 = [] then t.1 else t.1 ++ [(t.2.2, t.2.1)]

lemma coalesceAcc_factor (Δ : List (Nat × VkBufferCopy)) :
    ∀ (cmds : List (Nat × List VkBufferCopy)) (pending : List VkBufferCopy)
      (prev : Nat),
      coalesceAcc cmds pending prev Δ =
        (cmds ++ (coalesceAcc [] pending prev Δ).1,
         (coalesceAcc [] pending prev Δ).2.1,
         (coalesceAcc [] pending prev Δ).2.2) := by
  induction Δ with
  | nil => intro cmds pending prev; simp [coalesceAcc]
  | cons hd tl ih =>
    intro cmds pending prev
    obtain ⟨b, r⟩ := hd
    by_cases h : prev ≠ b ∧ pending ≠ []
    · simp only [coalesceAcc, if_pos h]
      rw [ih (cmds ++ [(prev, pending)]), ih ([] ++ [(prev, pending)])]
      simp [List.append_assoc]
    · simp only [coalesceAcc, if_neg h]
      rw [ih cmds, ih []]

lemma coalesceAcc_append (Δ1 Δ2 : List (Nat × VkBufferCopy)) :
    ∀ (cmds : List (Nat × List VkBufferCopy)) (pending : List VkBufferCopy)
      (prev : Nat),
      coalesceAcc cmds pending prev (Δ1 ++ Δ2) =
        coalesceAcc (coalesceAcc cmds pending prev Δ1).1
          (coalesceAcc cmds pending prev Δ1).2.1
          (coalesceAcc cmds pending prev Δ1).2.2 Δ2 := by
  induction Δ1 with
  | nil => intro cmds pending prev; simp [coalesceAcc]
  | cons hd tl ih =>
    intro cmds pending prev
    obtain ⟨b, r⟩ := hd
    simp only [List.cons_append, coalesceAcc]
    exact ih _ _ _

lemma coalesceCons_merge (b : Nat) (rs rs2 : List VkBufferCopy)
    (groups : List (Nat × List VkBufferCopy)) :
    coalesceCons b rs (coalesceCons b rs2 groups) =
      coalesceCons b (rs ++ rs2) groups := by
  cases groups with
  | nil => simp [coalesceCons]
  | cons hd out =>
    obtain ⟨d, rs3⟩ := hd
    by_cases h : b = d <;> simp [coalesceCons, h, List.append_assoc]

lemma coalesceCons_head (c : Nat) (rs2 : List VkBufferCopy)
    (groups : List (Nat × List VkBufferCopy)) :
    ∃ rs3 out, coalesceCons c rs2 groups = (c, rs3) :: out := by
  cases groups with
  | nil => exact ⟨rs2, [], rfl⟩
  | cons hd out =>
    obtain ⟨d, rs4⟩ := hd
    by_cases h : c = d
    · exact ⟨rs2 ++ rs4, out, by simp [coalesceCons, h]⟩
    · exact ⟨rs2, (d, rs4) :: out, by simp [coalesceCons, h]⟩

lemma flushFinal_factor (Δ : List (Nat × VkBufferCopy))
    (cmds : List (Nat × List VkBufferCopy)) (pending : List VkBufferCopy)
    (prev : Nat) :
    flushFinal (coalesceAcc cmds pending prev Δ) =
      cmds ++ flushFinal (coalesceAcc [] pending prev Δ) := by
  rw [coalesceAcc_factor]
  unfold flushFinal
  by_cases h : (coalesceAcc [] pending prev Δ).2.1 = [] <;>
    simp [h, List.append_assoc]

lemma flushFinal_coalesceAcc (Δ : List (Nat × VkBufferCopy)) :
    ∀ (rs : List VkBufferCopy) (b : Nat), rs ≠ [] →
      flushFinal (coalesceAcc [] rs b Δ) = coalesceCons b rs (coalesceSpec Δ) := by
  induction Δ with
  | nil =>
    intro rs b h
    simp [coalesceAcc, coalesceSpec, flushFinal, coalesceCons, h]
  | cons hd tl ih =>
    intro rs b h
    obtain ⟨c, r⟩ := hd
    by_cases hbc : b = c
    · subst hbc
      have hcond : ¬(b ≠ b ∧ rs ≠ []) := by simp
      simp only [coalesceAcc, if_neg hcond]
      rw [ih (rs ++ [r]) b (by simp)]
      show coalesceCons b (rs ++ [r]) (coalesceSpec tl) =
        coalesceCons b rs (coalesceSpec ((b, r) :: tl))
      show coalesceCons b (rs ++ [r]) (coalesceSpec tl) =
        coalesceCons b rs (coalesceCons b [r] (coalesceSpec tl))
      rw [coalesceCons_merge]
    · have hcond : b ≠ c ∧ rs ≠ [] := ⟨hbc, h⟩
      simp only [coalesceAcc, if_pos hcond, List.nil_append]
      rw [flushFinal_factor]
      rw [ih [r] c (by simp)]
      obtain ⟨rs3, out, hhd⟩ := coalesceCons_head c [r] (coalesceSpec tl)
      show [(b, rs)] ++ coalesceCons c [r] (coalesceSpec tl) =
        coalesceCons b rs (coalesceCons c [r] (coalesceSpec tl))
      rw [hhd]
      simp [coalesceCons, hbc]

lemma flushFinal_coalesceAcc_empty (prev : Nat)
    (Δ : List (Nat × VkBufferCopy)) :
    flushFinal (coalesceAcc [] [] prev Δ) = coalesceSpec Δ := by
  cases Δ with
  | nil => simp [coalesceAcc, flushFinal, coalesceSpec]
  | cons hd tl =>
    obtain ⟨b, r⟩ := hd
    have hcond : ¬(prev ≠ b ∧ ([] : List VkBufferCopy) ≠ []) := by simp
    simp only [coalesceAcc, if_neg hcond]
    rw [flushFinal_coalesceAcc tl ([] ++ [r]) b (by simp)]
    rfl

lemma uploadStep_acc (log2 start req : Nat) (g : Grant) (st : LoopState) :
    ((uploadStep log2 start req g st).commands,
     (uploadStep log2 start req g st).upload_regions,
     (uploadStep log2 start req g st).upload_buffer_previous) =
      coalesceAcc st.commands st.upload_regions st.upload_buffer_previous
        [(g.buffer, chunkRegion log2 start g)] := by
  simp only [uploadStep, coalesceAcc]

lemma uploadRangeLoop_sim (pool : Nat → Nat → Option Grant) (log2 : Nat) :
    ∀ (fuel start len : Nat) (st : LoopState),
      ∃ Δ, (uploadRangeLoop pool log2 fuel start len st).chunks =
            st.chunks ++ Δ ∧
        ((uploadRangeLoop pool log2 fuel start len st).commands,
         (uploadRangeLoop pool log2 fuel start len st).upload_regions,
         (uploadRangeLoop pool log2 fuel start len st).upload_buffer_previous) =
          coalesceAcc st.commands st.upload_regions st.upload_buffer_previous
            Δ := by
  intro fuel
  induction fuel with
  | zero =>
    intro start len st
    exact ⟨[], by simp [uploadRangeLoop, coalesceAcc]⟩
  | succ n ih =>
    intro start len st
    by_cases hlen : len = 0
    · exact ⟨[], by simp [uploadRangeLoop, hlen, coalesceAcc]⟩
    · cases hpool : pool st.requestLog.length (u32 (len <<< log2)) with
      | none =>
        refine ⟨[], ?_⟩
        simp [uploadRangeLoop, hlen, hpool, coalesceAcc]
      | some g =>
        obtain ⟨Δ, h1, h2⟩ :=
          ih (u32 (start + u32 (g.size >>> log2)))
            (u32sub len (u32 (g.size >>> log2)))
            (uploadStep log2 start (u32 (len <<< log2)) g st)
        refine ⟨(g.buffer, chunkRegion log2 start g) :: Δ, ?_, ?_⟩
        · simp only [uploadRangeLoop, if_neg hlen, hpool]
          rw [h1]
          show st.chunks ++ [(g.buffer, chunkRegion log2 start g)] ++ Δ = _
          simp [List.append_assoc]
        · simp only [uploadRangeLoop, if_neg hlen, hpool]
          rw [h2]
          rw [show ((g.buffer, chunkRegion log2 start g) :: Δ) =
                [(g.buffer, chunkRegion log2 start g)] ++ Δ from rfl]
          rw [coalesceAcc_append]
          rw [← uploadStep_acc log2 start (u32 (len <<< log2)) g st]

lemma uploadRangesLoop_sim (pool : Nat → Nat → Option Grant) (log2 : Nat) :
    ∀ (ranges : List (Nat × Nat)) (st : LoopState) (tw : List (Nat × Nat)),
      ∃ Δ, (uploadRangesLoop pool log2 ranges st tw).1.chunks =
            st.chunks ++ Δ ∧
        ((uploadRangesLoop pool log2 ranges st tw).1.commands,
         (uploadRangesLoop pool log2 ranges st tw).1.upload_regions,
         (uploadRangesLoop pool log2 ranges st tw).1.upload_buffer_previous) =
          coalesceAcc st.commands st.upload_regions st.upload_buffer_previous
            Δ := by
  intro ranges
  induction ranges with
  | nil =>
    intro st tw
    exact ⟨[], by simp [uploadRangesLoop, coalesceAcc]⟩
  | cons r rest ih =>
    intro st tw
    obtain ⟨Δ1, h1, h2⟩ := uploadRangeLoop_sim pool log2 r.2 r.1 r.2 st
    by_cases hsuc : (uploadRangeLoop pool log2 r.2 r.1 r.2 st).successful = true
    · have hres : uploadRangesLoop pool log2 (r :: rest) st tw =
          uploadRangesLoop pool log2 rest
            { uploadRangeLoop pool log2 r.2 r.1 r.2 st with
              rangeIndex :=
                (uploadRangeLoop pool log2 r.2 r.1 r.2 st).rangeIndex + 1 }
            (tw ++ [byteSpan log2 r]) := by
        simp [uploadRangesLoop, hsuc]
      obtain ⟨Δ2, h3, h4⟩ :=
        ih { uploadRangeLoop pool log2 r.2 r.1 r.2 st with
             rangeIndex :=
               (uploadRangeLoop pool log2 r.2 r.1 r.2 st).rangeIndex + 1 }
          (tw ++ [byteSpan log2 r])
      refine ⟨Δ1 ++ Δ2, ?_, ?_⟩
      · rw [hres, h3]
        show (uploadRangeLoop pool log2 r.2 r.1 r.2 st).chunks ++ Δ2 = _
        rw [h1, List.append_assoc]
      · rw [hres, h4, coalesceAcc_append, ← h2]
    · refine ⟨Δ1, ?_, ?_⟩
      · simp only [uploadRangesLoop, hsuc, if_neg, Bool.false_eq_true,
          not_false_eq_true]
        exact h1
      · simp only [uploadRangesLoop, hsuc, if_neg, Bool.false_eq_true,
          not_false_eq_true]
        exact h2

lemma uploadRanges_copy_coalesce (tess : Bool) (kB log2 : Nat)
    (pool : Nat → Nat → Option Grant) (tracker : UsageState)
    (regions0 : List VkBufferCopy) (ranges : List (Nat × Nat)) :
    (UploadRanges tess kB log2 pool tracker regions0 ranges).copyCommands =
      coalesceSpec
        ((UploadRanges tess kB log2 pool tracker regions0 ranges).chunks) := by
  cases ranges with
  | nil => simp [UploadRanges, coalesceSpec]
  | cons r rs =>
    simp only [UploadRanges]
    obtain ⟨Δ, h1, h2⟩ :=
      uploadRangesLoop_sim pool log2 (r :: rs)
        initialLoopState []
    have h1b :
        (uploadRangesLoop pool log2 (r :: rs)
          initialLoopState []).1.chunks = Δ := by
      rw [h1]; rfl
    have h2b :
        ((uploadRangesLoop pool log2 (r :: rs)
            initialLoopState []).1.commands,
         (uploadRangesLoop pool log2 (r :: rs)
            initialLoopState []).1.upload_regions,
         (uploadRangesLoop pool log2 (r :: rs)
            initialLoopState []).1.upload_buffer_previous) =
          coalesceAcc [] [] 0 Δ := h2
    have hcmd :
        (uploadRangesLoop pool log2 (r :: rs)
          initialLoopState []).1.commands =
          (coalesceAcc [] [] 0 Δ).1 := by
      rw [← h2b]
    have hreg :
        (uploadRangesLoop pool log2 (r :: rs)
          initialLoopState []).1.upload_regions =
          (coalesceAcc [] [] 0 Δ).2.1 := by
      rw [← h2b]
    have hprev :
        (uploadRangesLoop pool log2 (r :: rs)
          initialLoopState []).1.upload_buffer_previous =
          (coalesceAcc [] [] 0 Δ).2.2 := by
      rw [← h2b]
    by_cases h : (uploadRangesLoop pool log2 (r :: rs)
        initialLoopState []).1.upload_regions = []
    · rw [if_pos h]
      rw [hcmd, h1]
      have hAreg : (coalesceAcc [] [] 0 Δ).2.1 = [] := by rw [← hreg]; exact h
      calc (coalesceAcc [] [] 0 Δ).1
          = flushFinal (coalesceAcc [] [] 0 Δ) := by
            unfold flushFinal; rw [if_pos hAreg]
        _ = coalesceSpec Δ := flushFinal_coalesceAcc_empty 0 Δ
    · rw [if_neg h]
      simp only []
      rw [hcmd, hreg, hprev, h1]
      have hAreg : (coalesceAcc [] [] 0 Δ).2.1 ≠ [] := by rw [← hreg]; exact h
      calc (coalesceAcc [] [] 0 Δ).1 ++
            [((coalesceAcc [] [] 0 Δ).2.2, (coalesceAcc [] [] 0 Δ).2.1)]
          = flushFinal (coalesceAcc [] [] 0 Δ) := by
            unfold flushFinal; rw [if_neg hAreg]
        _ = coalesceSpec Δ := flushFinal_coalesceAcc_empty 0 Δ

lemma coalesceCons_flatten (b : Nat) (rs : List VkBufferCopy)
    (groups : List (Nat × List VkBufferCopy)) :
    ((coalesceCons b rs groups).map (fun g => g.2)).flatten =
      rs ++ (groups.map (fun g => g.2)).flatten := by
  cases groups with
  | nil => simp [coalesceCons]
  | cons hd out =>
    obtain ⟨c, rs2⟩ := hd
    by_cases h : b = c <;> simp [coalesceCons, h, List.append_assoc]

lemma coalesceSpec_flatten (Δ : List (Nat × VkBufferCopy)) :
    ((coalesceSpec Δ).map (fun g => g.2)).flatten = Δ.map (fun c => c.2) := by
  induction Δ with
  | nil => simp [coalesceSpec]
  | cons hd tl ih =>
    obtain ⟨b, r⟩ := hd
    show ((coalesceCons b [r] (coalesceSpec tl)).map (fun g => g.2)).flatten = _
    rw [coalesceCons_flatten, ih]
    simp

lemma uploadRangeLoop_log (pool : Nat → Nat → Option Grant) (log2 : Nat) :
    ∀ (fuel start len : Nat) (st : LoopState),
      st.successful = true →
      (∀ e ∈ st.requestLog, e.2.isSome = true) →
      ((uploadRangeLoop pool log2 fuel start len st).successful = true →
        ∀ e ∈ (uploadRangeLoop pool log2 fuel start len st).requestLog,
          e.2.isSome = true) ∧
      ((uploadRangeLoop pool log2 fuel start len st).successful = false →
        ∃ pre sz,
          (uploadRangeLoop pool log2 fuel start len st).requestLog =
            pre ++ [(sz, none)] ∧ ∀ e ∈ pre, e.2.isSome = true) := by
  intro fuel
  induction fuel with
  | zero =>
    intro start len st hsuc hall
    refine ⟨fun _ => hall, fun hfail => ?_⟩
    rw [show uploadRangeLoop pool log2 0 start len st = st from rfl] at hfail
    rw [hsuc] at hfail
    exact absurd hfail (by simp)
  | succ n ih =>
    intro start len st hsuc hall
    by_cases hlen : len = 0
    · refine ⟨fun _ => by simpa [uploadRangeLoop, hlen] using hall,
        fun hfail => ?_⟩
      rw [show uploadRangeLoop pool log2 (n + 1) start len st = st by
        simp [uploadRangeLoop, hlen]] at hfail
      rw [hsuc] at hfail
      exact absurd hfail (by simp)
    · cases hpool : pool st.requestLog.length (u32 (len <<< log2)) with
      | none =>
        constructor
        · intro h
          rw [show uploadRangeLoop pool log2 (n + 1) start len st =
              { st with successful := false,
                        requestLog :=
                          st.requestLog ++ [(u32 (len <<< log2), none)],
                        requestRanges :=
                          st.requestRanges ++ [st.rangeIndex] } by
            simp [uploadRangeLoop, hlen, hpool]] at h
          exact absurd h (by simp)
        · intro _
          refine ⟨st.requestLog, u32 (len <<< log2), ?_, hall⟩
          simp [uploadRangeLoop, hlen, hpool]
      | some g =>
        have hstep :
            uploadRangeLoop pool log2 (n + 1) start len st =
              uploadRangeLoop pool log2 n (u32 (start + u32 (g.size >>> log2)))
                (u32sub len (u32 (g.size >>> log2)))
                (uploadStep log2 start (u32 (len <<< log2)) g st) := by
          simp [uploadRangeLoop, hlen, hpool]
        rw [hstep]
        refine ih _ _ _ ?_ ?_
        · simpa [uploadStep] using hsuc
        · intro e he
          simp only [uploadStep, List.mem_append] at he
          rcases he with he | he
          · exact hall e he
          · simp only [List.mem_singleton] at he
            rw [he]
            rfl

lemma uploadRangesLoop_log (pool : Nat → Nat → Option Grant) (log2 : Nat) :
    ∀ (ranges : List (Nat × Nat)) (st : LoopState) (tw : List (Nat × Nat)),
      st.successful = true →
      (∀ e ∈ st.requestLog, e.2.isSome = true) →
      ((uploadRangesLoop pool log2 ranges st tw).1.successful = true →
        ∀ e ∈ (uploadRangesLoop pool log2 ranges st tw).1.requestLog,
          e.2.isSome = true) ∧
      ((uploadRangesLoop pool log2 ranges st tw).1.successful = false →
        ∃ pre sz,
          (uploadRangesLoop pool log2 ranges st tw).1.requestLog =
            pre ++ [(sz, none)] ∧ ∀ e ∈ pre, e.2.isSome = true) := by
  intro ranges
  induction ranges with
  | nil =>
    intro st tw hsuc hall
    refine ⟨fun _ => hall, fun hfail => ?_⟩
    rw [show (uploadRangesLoop pool log2 [] st tw).1 = st from rfl] at hfail
    rw [hsuc] at hfail
    exact absurd hfail (by simp)
  | cons r rest ih =>
    intro st tw hsuc hall
    obtain ⟨hin1, hin2⟩ := uploadRangeLoop_log pool log2 r.2 r.1 r.2 st hsuc hall
    by_cases hsuc1 : (uploadRangeLoop pool log2 r.2 r.1 r.2 st).successful = true
    · have hres : uploadRangesLoop pool log2 (r :: rest) st tw =
          uploadRangesLoop pool log2 rest
            { uploadRangeLoop pool log2 r.2 r.1 r.2 st with
              rangeIndex :=
                (uploadRangeLoop pool log2 r.2 r.1 r.2 st).rangeIndex + 1 }
            (tw ++ [byteSpan log2 r]) := by
        simp [uploadRangesLoop, hsuc1]
      rw [hres]
      exact ih _ _ hsuc1 (hin1 hsuc1)
    · have hres : uploadRangesLoop pool log2 (r :: rest) st tw =
          (uploadRangeLoop pool log2 r.2 r.1 r.2 st, tw ++ [byteSpan log2 r]) := by
        simp [uploadRangesLoop, hsuc1]
      rw [hres]
      exact ⟨fun h => absurd h hsuc1,
        fun _ => hin2 (Bool.eq_false_iff.2 (fun h => hsuc1 h))⟩

lemma uploadRangesLoop_trace (pool : Nat → Nat → Option Grant) (log2 : Nat) :
    ∀ (ranges : List (Nat × Nat)) (st : LoopState) (tw : List (Nat × Nat)),
      ((uploadRangesLoop pool log2 ranges st tw).1.successful = true →
        (uploadRangesLoop pool log2 ranges st tw).2 =
          tw ++ ranges.map (byteSpan log2)) ∧
      ((uploadRangesLoop pool log2 ranges st tw).1.successful = false →
        st.successful = true →
        ∃ k, k < ranges.length ∧
          (uploadRangesLoop pool log2 ranges st tw).2 =
            tw ++ (ranges.take (k + 1)).map (byteSpan log2)) := by
  intro ranges
  induction ranges with
  | nil =>
    intro st tw
    refine ⟨fun _ => by simp [uploadRangesLoop], fun hfail hsuc => ?_⟩
    rw [show (uploadRangesLoop pool log2 [] st tw).1 = st from rfl] at hfail
    rw [hsuc] at hfail
    exact absurd hfail (by simp)
  | cons r rest ih =>
    intro st tw
    by_cases hsuc1 : (uploadRangeLoop pool log2 r.2 r.1 r.2 st).successful = true
    · have hres : uploadRangesLoop pool log2 (r :: rest) st tw =
          uploadRangesLoop pool log2 rest
            { uploadRangeLoop pool log2 r.2 r.1 r.2 st with
              rangeIndex :=
                (uploadRangeLoop pool log2 r.2 r.1 r.2 st).rangeIndex + 1 }
            (tw ++ [byteSpan log2 r]) := by
        simp [uploadRangesLoop, hsuc1]
      rw [hres]
      obtain ⟨ihs, ihf⟩ :=
        ih { uploadRangeLoop pool log2 r.2 r.1 r.2 st with
             rangeIndex :=
               (uploadRangeLoop pool log2 r.2 r.1 r.2 st).rangeIndex + 1 }
          (tw ++ [byteSpan log2 r])
      constructor
      · intro h
        rw [ihs h]
        simp
      · intro h _
        obtain ⟨k, hk, heq⟩ := ihf h hsuc1
        refine ⟨k + 1, by simpa using Nat.succ_lt_succ hk, ?_⟩
        rw [heq]
        simp [List.take_succ_cons]
    · have hres : uploadRangesLoop pool log2 (r :: rest) st tw =
          (uploadRangeLoop pool log2 r.2 r.1 r.2 st, tw ++ [byteSpan log2 r]) := by
        simp [uploadRangesLoop, hsuc1]
      rw [hres]
      refine ⟨fun h => absurd h hsuc1, fun _ _ => ⟨0, by simp, ?_⟩⟩
      simp [List.take_succ_cons]

lemma uploadRangeLoop_tags (pool : Nat → Nat → Option Grant) (log2 : Nat) :
    ∀ (fuel start len : Nat) (st : LoopState),
      (uploadRangeLoop pool log2 fuel start len st).rangeIndex =
        st.rangeIndex ∧
      ∃ m, (uploadRangeLoop pool log2 fuel start len st).requestRanges =
          st.requestRanges ++ List.replicate m st.rangeIndex ∧
        ((uploadRangeLoop pool log2 fuel start len st).successful = false →
          st.successful = true → 1 ≤ m) := by
  intro fuel
  induction fuel with
  | zero =>
    intro start len st
    refine ⟨rfl, 0, by simp [uploadRangeLoop], fun hf ht => ?_⟩
    have hf2 : st.successful = false := hf
    rw [ht] at hf2
    exact absurd hf2 (by simp)
  | succ n ih =>
    intro start len st
    by_cases hlen : len = 0
    · refine ⟨by simp [uploadRangeLoop, hlen], 0,
        by simp [uploadRangeLoop, hlen], fun hf ht => ?_⟩
      have hf2 : st.successful = false := by
        rw [show uploadRangeLoop pool log2 (n + 1) start len st = st by
          simp [uploadRangeLoop, hlen]] at hf
        exact hf
      rw [ht] at hf2
      exact absurd hf2 (by simp)
    · cases hpool : pool st.requestLog.length (u32 (len <<< log2)) with
      | none =>
        have hres : uploadRangeLoop pool log2 (n + 1) start len st =
            { st with successful := false,
                      requestLog :=
                        st.requestLog ++ [(u32 (len <<< log2), none)],
                      requestRanges :=
                        st.requestRanges ++ [st.rangeIndex] } := by
          simp [uploadRangeLoop, hlen, hpool]
        rw [hres]
        exact ⟨rfl, 1, by simp, fun _ _ => le_refl 1⟩
      | some g =>
        have hres : uploadRangeLoop pool log2 (n + 1) start len st =
            uploadRangeLoop pool log2 n
              (u32 (start + u32 (g.size >>> log2)))
              (u32sub len (u32 (g.size >>> log2)))
              (uploadStep log2 start (u32 (len <<< log2)) g st) := by
          simp [uploadRangeLoop, hlen, hpool]
        rw [hres]
        obtain ⟨hidx, m, hrr, _⟩ :=
          ih (u32 (start + u32 (g.size >>> log2)))
            (u32sub len (u32 (g.size >>> log2)))
            (uploadStep log2 start (u32 (len <<< log2)) g st)
        refine ⟨hidx, m + 1, ?_, fun _ _ => Nat.succ_le_succ (Nat.zero_le m)⟩
        rw [hrr]
        show st.requestRanges ++ [st.rangeIndex] ++
            List.replicate m st.rangeIndex = _
        rw [List.append_assoc]
        rfl

lemma uploadRangesLoop_notify (pool : Nat → Nat → Option Grant) (log2 : Nat) :
    ∀ (ranges : List (Nat × Nat)) (st : LoopState) (tw : List (Nat × Nat)),
      st.successful = true →
      st.rangeIndex = tw.length →
      (∀ i ∈ st.requestRanges, i < tw.length) →
      (∀ i ∈ (uploadRangesLoop pool log2 ranges st tw).1.requestRanges,
        i < (uploadRangesLoop pool log2 ranges st tw).2.length) ∧
      ((uploadRangesLoop pool log2 ranges st tw).1.successful = false →
        ∃ k, k < ranges.length ∧
          (uploadRangesLoop pool log2 ranges st tw).2 =
            tw ++ (ranges.take (k + 1)).map (byteSpan log2) ∧
          (uploadRangesLoop pool log2 ranges st
              tw).1.requestRanges.getLast? = some (tw.length + k) ∧
          ∀ i ∈ (uploadRangesLoop pool log2 ranges st tw).1.requestRanges,
            i ≤ tw.length + k) := by
  intro ranges
  induction ranges with
  | nil =>
    intro st tw hsuc _ hall
    refine ⟨hall, fun hfail => ?_⟩
    have hf2 : st.successful = false := hfail
    rw [hsuc] at hf2
    exact absurd hf2 (by simp)
  | cons r rest ih =>
    intro st tw hsuc hlen hall
    obtain ⟨hidx, m, hrr, hm⟩ := uploadRangeLoop_tags pool log2 r.2 r.1 r.2 st
    have hall1 : ∀ i ∈ (uploadRangeLoop pool log2 r.2 r.1 r.2 st).requestRanges,
        i < tw.length + 1 := by
      rw [hrr]
      intro i hi
      rcases List.mem_append.1 hi with hi | hi
      · exact Nat.lt_succ_of_lt (hall i hi)
      · rw [List.eq_of_mem_replicate hi, hlen]
        exact Nat.lt_succ_self _
    by_cases hsuc1 : (uploadRangeLoop pool log2 r.2 r.1 r.2 st).successful = true
    · have hres : uploadRangesLoop pool log2 (r :: rest) st tw =
          uploadRangesLoop pool log2 rest
            { uploadRangeLoop pool log2 r.2 r.1 r.2 st with
              rangeIndex :=
                (uploadRangeLoop pool log2 r.2 r.1 r.2 st).rangeIndex + 1 }
            (tw ++ [byteSpan log2 r]) := by
        simp [uploadRangesLoop, hsuc1]
      rw [hres]
      obtain ⟨c1, c2⟩ :=
        ih { uploadRangeLoop pool log2 r.2 r.1 r.2 st with
             rangeIndex :=
               (uploadRangeLoop pool log2 r.2 r.1 r.2 st).rangeIndex + 1 }
          (tw ++ [byteSpan log2 r]) hsuc1
          (by show (uploadRangeLoop pool log2 r.2 r.1 r.2 st).rangeIndex + 1 = _
              rw [hidx, hlen]
              simp)
          (by show ∀ i ∈ (uploadRangeLoop pool log2 r.2 r.1 r.2 st).requestRanges,
                i < (tw ++ [byteSpan log2 r]).length
              simpa using hall1)
      refine ⟨c1, fun hfail => ?_⟩
      obtain ⟨k, hk, htw, hlast, hle⟩ := c2 hfail
      refine ⟨k + 1, Nat.succ_lt_succ hk, ?_, ?_, ?_⟩
      · rw [htw]
        simp [List.take_succ_cons]
      · rw [hlast]
        congr 1
        simp
        omega
      · intro i hi
        have := hle i hi
        simp at this
        omega
    · have hres : uploadRangesLoop pool log2 (r :: rest) st tw =
          (uploadRangeLoop pool log2 r.2 r.1 r.2 st,
           tw ++ [byteSpan log2 r]) := by
        simp [uploadRangesLoop, hsuc1]
      rw [hres]
      have hsf : (uploadRangeLoop pool log2 r.2 r.1 r.2 st).successful =
          false := Bool.eq_false_iff.2 (fun h => hsuc1 h)
      refine ⟨by simpa using hall1, fun _ => ⟨0, by simp, ?_, ?_, ?_⟩⟩
      · simp [List.take_succ_cons]
      · have hm1 : 1 ≤ m := hm hsf hsuc
        obtain ⟨m2, rfl⟩ : ∃ m2, m = m2 + 1 :=
          ⟨m - 1, by omega⟩
        rw [hrr, List.replicate_succ', ← List.append_assoc]
        rw [List.getLast?_concat]
        rw [hlen]
        simp
      · intro i hi
        rw [hrr] at hi
        rcases List.mem_append.1 hi with hi | hi
        · have := hall i hi
          omega
        · rw [List.eq_of_mem_replicate hi, hlen]
          omega

lemma uploadRanges_cons_requestRanges (tess : Bool) (kB log2 : Nat)
    (pool : Nat → Nat → Option Grant) (tracker : UsageState)
    (regions0 : List VkBufferCopy) (r : Nat × Nat) (rs : List (Nat × Nat)) :
    (UploadRanges tess kB log2 pool tracker regions0 (r :: rs)).requestRanges =
      (uploadRangesLoop pool log2 (r :: rs) initialLoopState
        []).1.requestRanges := by
  simp only [UploadRanges]
  by_cases h : (uploadRangesLoop pool log2 (r :: rs)
      initialLoopState []).1.upload_regions = []
  · rw [if_pos h]
  · rw [if_neg h]

lemma uploadRanges_cons_proj (tess : Bool) (kB log2 : Nat)
    (pool : Nat → Nat → Option Grant) (tracker : UsageState)
    (regions0 : List VkBufferCopy) (r : Nat × Nat) (rs : List (Nat × Nat)) :
    (UploadRanges tess kB log2 pool tracker regions0 (r :: rs)).successful =
      (uploadRangesLoop pool log2 (r :: rs) initialLoopState []).1.successful ∧
    (UploadRanges tess kB log2 pool tracker regions0 (r :: rs)).requestLog =
      (uploadRangesLoop pool log2 (r :: rs) initialLoopState []).1.requestLog ∧
    (UploadRanges tess kB log2 pool tracker regions0 (r :: rs)).traceWrites =
      (uploadRangesLoop pool log2 (r :: rs) initialLoopState []).2 ∧
    (UploadRanges tess kB log2 pool tracker regions0 (r :: rs)).chunks =
      (uploadRangesLoop pool log2 (r :: rs) initialLoopState []).1.chunks := by
  simp only [UploadRanges]
  by_cases h : (uploadRangesLoop pool log2 (r :: rs)
      initialLoopState []).1.upload_regions = []
  · rw [if_pos h]
    simp
  · rw [if_neg h]
    simp

/-- C1.  For every usage value in the closed set and every tessellation
capability, GetBarrier returns exactly the stage/access pair of the
specification mapping table; the ComputeWrite access mask is shader-read
and contains no shader-write bit; the tessellation-evaluation stage is
present in the Read and GuestDrawReadWrite stage masks exactly when the
device supports tessellation. -/
theorem getBarrier_matches_spec_table (tess : Bool) (usage : Usage) :
    GetBarrier tess usage = specBarrierTable tess usage ∧
    (GetBarrier tess Usage.kComputeWrite).2 &&& VK_ACCESS_SHADER_WRITE_BIT = 0 ∧
    (((GetBarrier tess Usage.kRead).1 &&&
        VK_PIPELINE_STAGE_TESSELLATION_EVALUATION_SHADER_BIT ≠ 0) ↔
      tess = true) ∧
    (((GetBarrier tess Usage.kGuestDrawReadWrite).1 &&&
        VK_PIPELINE_STAGE_TESSELLATION_EVALUATION_SHADER_BIT ≠ 0) ↔
      tess = true) := by
  cases tess <;> cases usage <;>
    exact ⟨by decide, by decide, by decide, by decide⟩

/-- C2.  In every tracker state, Use emits exactly one barrier when the
usage differs from the stored last usage or the stored last written range
has non-zero length, and emits no barrier otherwise. -/
theorem use_emits_barrier_iff (tess : Bool) (kBufferSize : Nat)
    (s : UsageState) (usage : Usage) (written_range : Nat × Nat) :
    (Use tess kBufferSize s usage written_range).2.isSome = true ↔
      (s.last_usage ≠ usage ∨ s.last_written_range.2 ≠ 0) := by
  unfold Use
  by_cases h : s.last_usage ≠ usage ∨ s.last_written_range.2 ≠ 0
  · simp only [if_pos h]
    by_cases h2 : s.last_usage = usage
    · simp only [if_pos h2, Option.isSome_some, true_iff]
      rcases h with hne | hlen
      · exact absurd h2 hne
      · exact Or.inr hlen
    · simp [h2]
  · simp only [if_neg h]
    simpa using h

/-- C9.  Shutdown is idempotent: after any state (including one left by a
partially failed Initialize) it clears the buffer handle, resets the usage
state to (TransferDestination, (0, 0)) and empties the backing-allocation
list; a second Shutdown destroys no buffer handle and frees no memory
allocation, and leaves the state unchanged. -/
theorem shutdown_idempotent (s : SharedMemoryState) (fd1 fd2 : Bool) :
    (Shutdown s fd1).1.buffer = none ∧
    (Shutdown (Shutdown s fd1).1 fd2).1.buffer = none ∧
    (Shutdown (Shutdown s fd1).1 fd2).2.destroyedBuffers = [] ∧
    (Shutdown (Shutdown s fd1).1 fd2).2.freedMemory = [] ∧
    (Shutdown s fd1).1.last_usage = Usage.kTransferDestination ∧
    (Shutdown s fd1).1.last_written_range = (0, 0) ∧
    (Shutdown s fd1).1.buffer_memory = [] ∧
    (Shutdown s fd1).1.buffer_memory_allocated = [] ∧
    (Shutdown (Shutdown s fd1).1 fd2).1 = (Shutdown s fd1).1 :=
  ⟨rfl, rfl, rfl, rfl, rfl, rfl, rfl, rfl, rfl⟩

/-- C10.  The pending copy-region list upload_regions_ is empty whenever
UploadRanges returns: on every non-empty input it is cleared on entry and
every accumulated region is flushed before return (on the success and the
allocation-failure path alike), and on empty input it is left untouched,
so an empty list on entry stays empty; no region accumulated in one call
leaks into a later call. -/
theorem upload_regions_empty_at_return (tess : Bool) (kB log2 : Nat)
    (pool : Nat → Nat → Option Grant) (tracker : UsageState)
    (regions0 : List VkBufferCopy) (ranges : List (Nat × Nat)) :
    (regions0 = [] →
      (UploadRanges tess kB log2 pool tracker regions0 ranges).upload_regions =
        []) ∧
    (ranges ≠ [] →
      (UploadRanges tess kB log2 pool tracker regions0 ranges).upload_regions =
        []) := by
  cases ranges with
  | nil =>
    exact ⟨fun h => by simp [UploadRanges, h], fun h => absurd rfl h⟩
  | cons r rs =>
    refine ⟨fun _ => ?_, fun _ => ?_⟩ <;>
    · simp only [UploadRanges]
      by_cases h : (uploadRangesLoop pool log2 (r :: rs)
          initialLoopState []).1.upload_regions = []
      · rw [if_pos h]; exact h
      · rw [if_neg h]

/-- Witness for upload_regions_empty_at_return at a concrete call. -/
theorem upload_regions_empty_at_return_witness :
    (UploadRanges false (2 ^ 29) 12 (fun _ _ => none)
      { last_usage := Usage.kTransferDestination, last_written_range := (0, 0) }
      [] [(0, 1)]).upload_regions = [] :=
  (upload_regions_empty_at_return false (2 ^ 29) 12 (fun _ _ => none)
    { last_usage := Usage.kTransferDestination, last_written_range := (0, 0) }
    [] [(0, 1)]).2 (by simp)

/-- C3.  Whenever Use emits a barrier: the source stage/access masks
derive from the old usage and the destination masks from the new usage; if
the usage equals the stored last usage the barrier range is exactly the
stored last written range and the last usage stays unchanged; if the usage
differs the barrier range is the whole buffer (offset 0 with the
VK_WHOLE_SIZE sentinel) and the last usage is updated to the new usage;
and in every call, barrier or not, the clipped written range is recorded
as the new last written range. -/
theorem use_barrier_shape (tess : Bool) (kBufferSize : Nat) (s : UsageState)
    (usage : Usage) (written_range : Nat × Nat) :
    (Use tess kBufferSize s usage written_range).1.last_written_range =
      (min written_range.1 kBufferSize,
       min written_range.2 (kBufferSize - min written_range.1 kBufferSize)) ∧
    ∀ b, (Use tess kBufferSize s usage written_range).2 = some b →
      b.srcStageMask = (GetBarrier tess s.last_usage).1 ∧
      b.srcAccessMask = (GetBarrier tess s.last_usage).2 ∧
      b.dstStageMask = (GetBarrier tess usage).1 ∧
      b.dstAccessMask = (GetBarrier tess usage).2 ∧
      (s.last_usage = usage →
        b.offset = s.last_written_range.1 ∧
        b.size = s.last_written_range.2 ∧
        (Use tess kBufferSize s usage written_range).1.last_usage =
          s.last_usage) ∧
      (s.last_usage ≠ usage →
        b.offset = 0 ∧ b.size = VK_WHOLE_SIZE ∧
        (Use tess kBufferSize s usage written_range).1.last_usage = usage) := by
  unfold Use
  by_cases h : s.last_usage ≠ usage ∨ s.last_written_range.2 ≠ 0
  · rw [if_pos h]
    by_cases h2 : s.last_usage = usage
    · rw [if_pos h2]
      refine ⟨rfl, ?_⟩
      intro b hb
      simp only [Option.some.injEq] at hb
      subst hb
      exact ⟨rfl, rfl, rfl, rfl, fun _ => ⟨rfl, rfl, rfl⟩,
        fun hne => absurd h2 hne⟩
    · rw [if_neg h2]
      refine ⟨rfl, ?_⟩
      intro b hb
      simp only [Option.some.injEq] at hb
      subst hb
      exact ⟨rfl, rfl, rfl, rfl, fun heq => absurd heq h2,
        fun _ => ⟨rfl, rfl, rfl⟩⟩
  · rw [if_neg h]
    exact ⟨rfl, fun b hb => by simp at hb⟩

/-- Witness for use_barrier_shape: a concrete transition from
TransferDestination with pending range (5, 7) to Read records the clipped
written range (2, 3), and the emitted barrier covers the whole buffer and
updates the last usage. -/
theorem use_barrier_shape_witness :
    (Use true 100
      { last_usage := Usage.kTransferDestination, last_written_range := (5, 7) }
      Usage.kRead (2, 3)).1.last_written_range =
        (min 2 100, min 3 (100 - min 2 100)) ∧
    ({ srcStageMask := 4096, dstStageMask := 6316, srcAccessMask := 4096,
       dstAccessMask := 2082, offset := 0,
       size := VK_WHOLE_SIZE } : BufferMemoryBarrier).offset = 0 ∧
    ({ srcStageMask := 4096, dstStageMask := 6316, srcAccessMask := 4096,
       dstAccessMask := 2082, offset := 0,
       size := VK_WHOLE_SIZE } : BufferMemoryBarrier).size = VK_WHOLE_SIZE ∧
    (Use true 100
      { last_usage := Usage.kTransferDestination, last_written_range := (5, 7) }
      Usage.kRead (2, 3)).1.last_usage = Usage.kRead := by
  have h := use_barrier_shape true 100
    { last_usage := Usage.kTransferDestination, last_written_range := (5, 7) }
    Usage.kRead (2, 3)
  have h2 := h.2
    { srcStageMask := 4096, dstStageMask := 6316, srcAccessMask := 4096,
      dstAccessMask := 2082, offset := 0, size := VK_WHOLE_SIZE }
    (by decide)
  have h3 := h2.2.2.2.2.2 (by decide)
  exact ⟨h.1, h3.1, h3.2.1, h3.2.2⟩

/-- C5.  Within one UploadRanges call the issued copy commands are exactly
the maximal runs of consecutive chunks with the same staging-buffer
identity: one batched command per run carrying all the run regions (an
identity change flushes the pending list against the previous identity,
and a trailing pending list is flushed as one final command), as stated by
the coalescing specification coalesceSpec over the chunk log. -/
theorem upload_copy_commands_coalesced (tess : Bool) (kB log2 : Nat)
    (pool : Nat → Nat → Option Grant) (tracker : UsageState)
    (regions0 : List VkBufferCopy) (ranges : List (Nat × Nat)) :
    (UploadRanges tess kB log2 pool tracker regions0 ranges).copyCommands =
      coalesceSpec
        ((UploadRanges tess kB log2 pool tracker regions0 ranges).chunks) :=
  uploadRanges_copy_coalesce tess kB log2 pool tracker regions0 ranges

/-- C6.  UploadRanges returns false exactly when a staging-allocation
request failed; the failed request is always the last request made (every
earlier request succeeded and no request follows it, so the remaining work
is abandoned with no internal retry); and every region accumulated for
successfully staged chunks is flushed into an issued copy command before
returning. -/
theorem upload_alloc_failure_handling (tess : Bool) (kB log2 : Nat)
    (pool : Nat → Nat → Option Grant) (tracker : UsageState)
    (regions0 : List VkBufferCopy) (ranges : List (Nat × Nat)) :
    ((UploadRanges tess kB log2 pool tracker regions0 ranges).successful =
        false ↔
      ∃ sz, (UploadRanges tess kB log2 pool tracker regions0
          ranges).requestLog.getLast? = some (sz, none)) ∧
    (∀ e ∈ (UploadRanges tess kB log2 pool tracker regions0
        ranges).requestLog.dropLast, e.2.isSome = true) ∧
    ((UploadRanges tess kB log2 pool tracker regions0
        ranges).copyCommands.map (fun c => c.2)).flatten =
      (UploadRanges tess kB log2 pool tracker regions0 ranges).chunks.map
        (fun c => c.2) := by
  refine ⟨?_, ?_, ?_⟩
  · cases ranges with
    | nil => simp [UploadRanges]
    | cons r rs =>
      obtain ⟨hsuc, hlog, _, _⟩ :=
        uploadRanges_cons_proj tess kB log2 pool tracker regions0 r rs
      rw [hsuc, hlog]
      obtain ⟨hgood, hbad⟩ :=
        uploadRangesLoop_log pool log2 (r :: rs) initialLoopState [] rfl
          (by simp [initialLoopState])
      constructor
      · intro h
        obtain ⟨pre, sz, heq, _⟩ := hbad h
        exact ⟨sz, by rw [heq]; exact List.getLast?_concat pre⟩
      · intro ⟨sz, hlast⟩
        cases hs : (uploadRangesLoop pool log2 (r :: rs)
            initialLoopState []).1.successful with
        | false => rfl
        | true =>
          have := hgood hs (sz, none) (List.mem_of_mem_getLast? hlast)
          simp at this
  · cases ranges with
    | nil => simp [UploadRanges]
    | cons r rs =>
      obtain ⟨hsuc, hlog, _, _⟩ :=
        uploadRanges_cons_proj tess kB log2 pool tracker regions0 r rs
      rw [hlog]
      obtain ⟨hgood, hbad⟩ :=
        uploadRangesLoop_log pool log2 (r :: rs) initialLoopState [] rfl
          (by simp [initialLoopState])
      cases hs : (uploadRangesLoop pool log2 (r :: rs)
          initialLoopState []).1.successful with
      | true =>
        intro e he
        exact hgood hs e (List.mem_of_mem_dropLast he)
      | false =>
        obtain ⟨pre, sz, heq, hpre⟩ := hbad hs
        rw [heq, List.dropLast_concat]
        exact hpre
  · rw [uploadRanges_copy_coalesce]
    exact coalesceSpec_flatten _

/-- A staging pool granting one page (4096 bytes at page-size exponent 12)
per request and failing from the third request on: the five-chunk batch of
the specification example in which chunk 3 fails to allocate. -/
def chunkFailPool : Nat → Nat → Option Grant := fun i req =>
  if i < 2 then some { buffer := 17, offset := i * 4096, size := min req 4096 }
  else none

/-- Witness for upload_alloc_failure_handling: the five-chunk batch whose
third staging request fails returns false, and the entries before the
failing one all succeeded. -/
theorem upload_alloc_failure_handling_witness :
    (UploadRanges false (2 ^ 29) 12 chunkFailPool
      { last_usage := Usage.kTransferDestination, last_written_range := (0, 0) }
      [] [(0, 5)]).successful = false ∧
    ((20480, some { buffer := 17, offset := 0, size := 4096 }) :
      Nat × Option Grant).2.isSome = true := by
  have h := upload_alloc_failure_handling false (2 ^ 29) 12 chunkFailPool
    { last_usage := Usage.kTransferDestination, last_written_range := (0, 0) }
    [] [(0, 5)]
  exact ⟨h.1.mpr ⟨12288, by decide⟩,
    h.2.1 (20480, some { buffer := 17, offset := 0, size := 4096 })
      (by decide)⟩

/-- Counterexample to C8 as stated: with a pool that always fails, the
batch [(0, 1), (1, 1)] gets its WriteMemoryRead notification only for the
first range; the second dirty range of the batch is never notified even
though the claim says every dirty range is notified despite the failure. -/
theorem trace_writes_counterexample :
    (UploadRanges false (2 ^ 29) 12 (fun _ _ => none)
      { last_usage := Usage.kTransferDestination, last_written_range := (0, 0) }
      [] [(0, 1), (1, 1)]).successful = false ∧
    (UploadRanges false (2 ^ 29) 12 (fun _ _ => none)
      { last_usage := Usage.kTransferDestination, last_written_range := (0, 0) }
      [] [(0, 1), (1, 1)]).traceWrites = [(0, 4096)] ∧
    byteSpan 12 (1, 1) = (4096, 4096) ∧
    (4096, 4096) ∉ (UploadRanges false (2 ^ 29) 12 (fun _ _ => none)
      { last_usage := Usage.kTransferDestination, last_written_range := (0, 0) }
      [] [(0, 1), (1, 1)]).traceWrites := by decide

/-- C8 amended.  On success, WriteMemoryRead is invoked, in order, for
every dirty range of the batch.  On an allocation failure there is a k
below the range count such that exactly the first k + 1 ranges were
notified, in order, and the failing staging request was issued while
processing range k (requestRanges records the range index of every pool
request, and the last, failing, request carries index k) - so the range
in which the failure occurs is itself notified, and no range after the
failing one ever issued a staging request or was notified.  In every
call, each staging request is issued for a range that has already been
notified: its range index is below the number of WriteMemoryRead events,
which the per-range order (notification first, then that range's
requests) guarantees. -/
theorem trace_writes_notified_ranges (tess : Bool) (kB log2 : Nat)
    (pool : Nat → Nat → Option Grant) (tracker : UsageState)
    (regions0 : List VkBufferCopy) (ranges : List (Nat × Nat)) :
    ((UploadRanges tess kB log2 pool tracker regions0 ranges).successful =
        true →
      (UploadRanges tess kB log2 pool tracker regions0 ranges).traceWrites =
        ranges.map (byteSpan log2)) ∧
    ((UploadRanges tess kB log2 pool tracker regions0 ranges).successful =
        false →
      ∃ k, k < ranges.length ∧
        (UploadRanges tess kB log2 pool tracker regions0 ranges).traceWrites =
          (ranges.take (k + 1)).map (byteSpan log2) ∧
        (UploadRanges tess kB log2 pool tracker regions0
            ranges).requestRanges.getLast? = some k ∧
        ∀ i ∈ (UploadRanges tess kB log2 pool tracker regions0
            ranges).requestRanges, i ≤ k) ∧
    (∀ i ∈ (UploadRanges tess kB log2 pool tracker regions0
        ranges).requestRanges,
      i < (UploadRanges tess kB log2 pool tracker regions0
        ranges).traceWrites.length) := by
  cases ranges with
  | nil =>
    refine ⟨fun _ => by simp [UploadRanges], fun h => ?_, fun i hi => ?_⟩
    · rw [show (UploadRanges tess kB log2 pool tracker regions0
        []).successful = true from rfl] at h
      exact absurd h (by simp)
    · exact absurd hi (by simp [UploadRanges])
  | cons r rs =>
    obtain ⟨hsuc, _, htw, _⟩ :=
      uploadRanges_cons_proj tess kB log2 pool tracker regions0 r rs
    have hrr := uploadRanges_cons_requestRanges tess kB log2 pool tracker
      regions0 r rs
    rw [hsuc, htw, hrr]
    obtain ⟨hok, _⟩ :=
      uploadRangesLoop_trace pool log2 (r :: rs) initialLoopState []
    obtain ⟨hord, hfail⟩ :=
      uploadRangesLoop_notify pool log2 (r :: rs) initialLoopState [] rfl rfl
        (by simp [initialLoopState])
    refine ⟨fun h => by rw [hok h]; rfl, fun h => ?_, ?_⟩
    · obtain ⟨k, hk, heq, hlast, hle⟩ := hfail h
      refine ⟨k, hk, by rw [heq]; rfl, ?_, ?_⟩
      · rw [hlast]
        simp
      · intro i hi
        have := hle i hi
        simpa using this
    · simpa using hord

/-- A staging pool granting every request in full from one staging buffer
(identity 17). -/
def fullGrantPool : Nat → Nat → Option Grant := fun _ req =>
  some { buffer := 17, offset := 0, size := req }

/-- Witness for trace_writes_notified_ranges at a concrete call: the
success branch on a one-range batch, and the notified-before-request
ordering at the concrete request of that batch (its range index 0 is
below the notification count). -/
theorem trace_writes_notified_ranges_witness :
    (UploadRanges false (2 ^ 29) 12 fullGrantPool
      { last_usage := Usage.kTransferDestination, last_written_range := (0, 0) }
      [] [(0, 1)]).traceWrites =
      ([(0, 1)] : List (Nat × Nat)).map (byteSpan 12) ∧
    (0 : Nat) < (UploadRanges false (2 ^ 29) 12 fullGrantPool
      { last_usage := Usage.kTransferDestination, last_written_range := (0, 0) }
      [] [(0, 1)]).traceWrites.length := by
  have h := trace_writes_notified_ranges false (2 ^ 29) 12 fullGrantPool
    { last_usage := Usage.kTransferDestination, last_written_range := (0, 0) }
    [] [(0, 1)]
  exact ⟨h.1 (by decide), h.2.2 0 (by decide)⟩

/-- C4.  For every non-empty input list whose byte span fits in uint32 and
whose first start page does not exceed the last end page, UploadRanges
calls Use(TransferDestination, span) exactly once for the whole batch,
with the span starting at the first range start byte and ending at the
last range end byte; in particular, with page size 4096 and input
[(0, 4), (10, 2)] and a full-granting pool, the single up-front Use span
is [0, 49152) and the issued copy destinations are exactly [0, 16384) and
[40960, 49152). -/
theorem upload_single_use_span :
    (∀ (tess : Bool) (kB log2 : Nat) (pool : Nat → Nat → Option Grant)
        (tracker : UsageState) (regions0 : List VkBufferCopy)
        (r : Nat × Nat) (rs : List (Nat × Nat)) (B : Nat),
      B = ((r :: rs).getLast (List.cons_ne_nil r rs)).1 +
          ((r :: rs).getLast (List.cons_ne_nil r rs)).2 →
      r.1 ≤ B → B <<< log2 < 2 ^ 32 →
      (UploadRanges tess kB log2 pool tracker regions0 (r :: rs)).useCalls =
        [(Usage.kTransferDestination,
          (r.1 <<< log2, (B - r.1) <<< log2))] ∧
      r.1 <<< log2 + (B - r.1) <<< log2 = B <<< log2) ∧
    ((UploadRanges false (2 ^ 29) 12 fullGrantPool
        { last_usage := Usage.kTransferDestination,
          last_written_range := (0, 0) } [] [(0, 4), (10, 2)]).useCalls =
      [(Usage.kTransferDestination, (0, 49152))] ∧
     (UploadRanges false (2 ^ 29) 12 fullGrantPool
        { last_usage := Usage.kTransferDestination,
          last_written_range := (0, 0) } [] [(0, 4), (10, 2)]).copyCommands.map
          (fun c => c.2.map (fun reg => (reg.dstOffset, reg.size))) =
      [[(0, 16384), (40960, 8192)]]) := by
  constructor
  · intro tess kB log2 pool tracker regions0 r rs B hB hle hlt
    have hmono : ∀ a b : Nat, a ≤ b → a <<< log2 ≤ b <<< log2 := by
      intro a b h
      rw [Nat.shiftLeft_eq, Nat.shiftLeft_eq]
      exact Nat.mul_le_mul h (le_refl (2 ^ log2))
    have hBle : B ≤ B <<< log2 := by
      rw [Nat.shiftLeft_eq]
      calc B = B * 1 := (Nat.mul_one B).symm
        _ ≤ B * 2 ^ log2 :=
          Nat.mul_le_mul (le_refl B) (Nat.one_le_pow _ _ (by norm_num))
    have hB32 : B < 2 ^ 32 := lt_of_le_of_lt hBle hlt
    have hr32 : r.1 < 2 ^ 32 := lt_of_le_of_lt hle hB32
    have e1 : u32 (r.1 <<< log2) = r.1 <<< log2 :=
      Nat.mod_eq_of_lt (lt_of_le_of_lt (hmono _ _ hle) hlt)
    have e2 : u32 B = B := Nat.mod_eq_of_lt hB32
    have e3 : u32sub B r.1 = B - r.1 := by
      unfold u32sub
      rw [Nat.mod_eq_of_lt hr32]
      rw [show B + 2 ^ 32 - r.1 = (B - r.1) + 2 ^ 32 by omega]
      rw [Nat.add_mod_right]
      exact Nat.mod_eq_of_lt (by omega)
    have e4 : u32 ((B - r.1) <<< log2) = (B - r.1) <<< log2 :=
      Nat.mod_eq_of_lt (lt_of_le_of_lt (hmono _ _ (Nat.sub_le B r.1)) hlt)
    constructor
    · simp only [UploadRanges]
      rw [← hB, e2, e3, e4, e1]
    · rw [Nat.shiftLeft_eq, Nat.shiftLeft_eq, Nat.shiftLeft_eq, Nat.sub_mul]
      have hmul : r.1 * 2 ^ log2 ≤ B * 2 ^ log2 :=
        Nat.mul_le_mul hle (le_refl (2 ^ log2))
      omega
  · exact ⟨by decide, by decide⟩

/-- Witness for upload_single_use_span: the universal part applied to the
concrete batch [(0, 4), (10, 2)] with page-size exponent 12. -/
theorem upload_single_use_span_witness :
    (UploadRanges false (2 ^ 29) 12 fullGrantPool
      { last_usage := Usage.kTransferDestination, last_written_range := (0, 0) }
      [] [(0, 4), (10, 2)]).useCalls =
      [(Usage.kTransferDestination, ((0 : Nat) <<< 12, (12 - 0) <<< 12))] :=
  (upload_single_use_span.1 false (2 ^ 29) 12 fullGrantPool
    { last_usage := Usage.kTransferDestination, last_written_range := (0, 0) }
    [] (0, 4) [(10, 2)] 12 (by decide) (by decide) (by decide)).1

/-- A Vulkan oracle on which every device call fails. -/
def failingVkOracle : InitOracle :=
  { createBuffer := fun _ _ => none, memoryTypeBits := 0,
    memory_types_device_local := 0, allocateMemory := none,
    bindBufferMemory := false }

/-- The freshly constructed object state: no pool, default usage state,
null buffer handle, no allocations. -/
def freshState : SharedMemoryState :=
  { upload_buffer_pool := false, last_usage := Usage.kTransferDestination,
    last_written_range := (0, 0), buffer := none,
    buffer_memory_allocated := [], buffer_memory := [] }

/-- Counterexample to C7 as stated: when the first vkCreateBuffer attempt
fails, no retry happens — buffer_create_info.flags is 0 (the sparse flags
are never set, sparse binding being a TODO in the source), so the retry
condition flags AND sparse_flags is always false and exactly one creation
attempt is made, not the two the claim requires. -/
theorem initialize_no_retry_counterexample :
    (Initialize failingVkOracle freshState).createAttemptFlags = [0] ∧
    (Initialize failingVkOracle freshState).createAttemptFlags.length ≠ 2 ∧
    (Initialize failingVkOracle freshState).success = false := by decide

/-- C7 amended.  Initialize makes exactly one buffer-creation attempt,
with flags 0 (the sparse-binding/sparse-residency flags are never set, so
the retry-with-cleared-flags branch is unreachable); on creation failure,
memory-type-selection failure, allocation failure, or binding failure it
calls Shutdown and returns false, leaving no partially constructed
resource: the buffer handle is null, the backing-allocation lists are
empty, and no pool exists. -/
theorem initialize_failure_unwinds (o : InitOracle) (s : SharedMemoryState) :
    (Initialize o s).createAttemptFlags = [0] ∧
    ((Initialize o s).success = false →
      (Initialize o s).shutdownCalled = true ∧
      (Initialize o s).state.buffer = none ∧
      (Initialize o s).state.buffer_memory = [] ∧
      (Initialize o s).state.buffer_memory_allocated = [] ∧
      (Initialize o s).state.upload_buffer_pool = false) := by
  unfold Initialize
  cases h0 : o.createBuffer 0 0 with
  | none =>
    simp only [h0]
    rw [if_neg (by decide : ¬((0 : Nat) &&& kSparseFlags ≠ 0))]
    simp [Shutdown]
  | some h =>
    simp only [h0]
    cases hm : bit_scan_forward (o.memoryTypeBits &&& o.memory_types_device_local) with
    | none =>
      simp only [hm]
      simp [Shutdown]
    | some mt =>
      simp only [hm]
      rw [if_pos (by decide : (0 : Nat) &&& kSparseFlags = 0)]
      cases ha : o.allocateMemory with
      | none =>
        simp only [ha]
        simp [Shutdown]
      | some mem =>
        simp only [ha]
        cases hb : o.bindBufferMemory with
        | false => simp [Shutdown]
        | true => simp

/-- Witness for initialize_failure_unwinds with the all-failing oracle. -/
theorem initialize_failure_unwinds_witness :
    (Initialize failingVkOracle freshState).state.buffer = none ∧
    (Initialize failingVkOracle freshState).shutdownCalled = true := by
  have h := (initialize_failure_unwinds failingVkOracle freshState).2 (by decide)
  exact ⟨h.2.1, h.1⟩

end VulkanSharedMemory
